import Mathlib

/-!
# EDV zcapld authorization service (`pkg/auth/zcapld/service.go`)

A shallow embedding of the capability service: `New`, `Create`, `Handler`,
`createRootCapability`, `getCapability`, `logError.Log` and
`loadJSONLDContext`.

Conventions of the embedding

* A Go `string` and a Go `[]byte` are both carried as `String`; the conversion
  `[]byte(s)` is `bytesOf`.
* A Go `error` is carried as its message (`err.Error()`), and
  `fmt.Errorf("...: %w", err)` is concatenation of the text with that message.
* A Go `(T, error)` result is `Except String T`.
* The collaborators that live outside the repository (key manager, crypto,
  uuid generator, the `zcapld` library of edge-core, `encoding/json`, the
  storage backend, the JSON-LD reader) are fields of an environment `Env ω`;
  `ω` is the state of the outside world (key material, entropy, backend
  availability) and is threaded through every call that may consult it.
* The mutable store behind `Service.store` is explicit state: every operation
  returns the service it leaves behind.
-/

namespace Zcapld

/-! ## Data model -/

/-- Go `[]byte`. -/
abbrev Bytes := String

/-- Go `[]byte(s)`: the same sequence of bytes. -/
def bytesOf (s : String) : Bytes := s

/-- Constant `storeName`. -/
def storeName : String := "zcap_capability"

/-- Constant `edvResource`. -/
def edvResource : String := "urn:edv:vault"

/-- Constant `http.MethodGet`. -/
def MethodGet : String := "GET"

/-- Constant `http.StatusBadRequest`. -/
def StatusBadRequest : Nat := 400

/-- Constant `ed25519signature2018.SignatureType`. -/
def SignatureType : String := "Ed25519Signature2018"

/-- The `zcapld.InvocationTarget` of a capability: resource id and resource type. -/
structure InvocationTarget where
  ID : String
  Type_ : String
  deriving DecidableEq, Repr

/-- The fields of `zcapld.Capability` that the service reads or sets.  `Parent`
and `Invoker` are the empty string when absent, as in Go. -/
structure Capability where
  ID : String
  Invoker : String
  Parent : String
  AllowedAction : List String
  InvocationTarget : InvocationTarget
  CapabilityChain : List String
  Proof : List String
  deriving DecidableEq, Repr

/-- The functional options handed to `zcapld.NewCapability`. -/
inductive CapabilityOption where
  | WithID (id : String)
  | WithParent (p : String)
  | WithInvoker (i : String)
  | WithAllowedActions (actions : List String)
  | WithInvocationTarget (targetID targetType : String)
  | WithCapabilityChain (chain : List String)
  deriving DecidableEq, Repr

/-- The record `zcapld.CapabilityOptions` the options write into.  `ID` is
`none` until `WithID` sets it (the library then generates one). -/
structure CapabilityOptions where
  ID : Option String := none
  Parent : String := ""
  Invoker : String := ""
  AllowedAction : List String := []
  InvocationTarget : InvocationTarget := ⟨"", ""⟩
  CapabilityChain : List String := []
  deriving DecidableEq, Repr

/-- One option applied to the options record. -/
def CapabilityOption.apply : CapabilityOption → CapabilityOptions → CapabilityOptions
  | .WithID id, o => { o with ID := some id }
  | .WithParent p, o => { o with Parent := p }
  | .WithInvoker i, o => { o with Invoker := i }
  | .WithAllowedActions a, o => { o with AllowedAction := a }
  | .WithInvocationTarget t ty, o => { o with InvocationTarget := ⟨t, ty⟩ }
  | .WithCapabilityChain c, o => { o with CapabilityChain := c }

/-- All options applied in order to the empty record. -/
def collectOptions (opts : List CapabilityOption) : CapabilityOptions :=
  opts.foldl (fun o f => f.apply o) {}

/-- The signer returned by `signature.NewCryptoSigner`. -/
structure CryptoSigner where
  PublicKeyBytes : Bytes
  deriving DecidableEq, Repr

/-- The record `zcapld.Signer` passed to `zcapld.NewCapability`. -/
structure Signer where
  SignatureSuite : CryptoSigner
  SuiteType : String
  VerificationMethod : String
  deriving DecidableEq, Repr

/-- The record `ld.RemoteDocument`. -/
structure RemoteDocument where
  DocumentURL : String
  Document : String
  deriving DecidableEq, Repr

/-- The collaborators outside the repository, over a world state `ω`. -/
structure Env (ω : Type) where
  /-- Result of `signature.NewCryptoSigner(crypto, keyManager, kms.ED25519)`. -/
  newCryptoSigner : ω → Except String CryptoSigner × ω
  /-- Result of `uuid.New().URN()`. -/
  uuidNewURN : ω → String × ω
  /-- Result of `fingerprint.CreateDIDKey`: the did:key and its key URL. -/
  createDIDKey : Bytes → String × String
  /-- Result of `zcapld.NewCapability(signer, options...)`. -/
  newCapability : Signer → List CapabilityOption → ω → Except String Capability × ω
  /-- Result of `json.Marshal` on a capability. -/
  jsonMarshal : Capability → Except String Bytes
  /-- Result of `zcapld.ParseCapability`. -/
  parseCapability : Bytes → Except String Capability
  /-- Verdict of the storage backend on a `Put`: `some err` when it refuses. -/
  backendPut : String → Bytes → ω → Option String × ω
  /-- Verdict of the storage backend on a `Get`: `some err` when it is unavailable. -/
  backendGet : String → ω → Option String
  /-- Result of `ld.DocumentFromReader(strings.NewReader(content))`. -/
  documentFromReader : String → Except String String
  /-- Embedded constant `w3idOrgSecurityV1` (declared elsewhere in the package). -/
  w3idOrgSecurityV1 : String
  /-- Embedded constant `w3idOrgSecurityV2` (declared elsewhere in the package). -/
  w3idOrgSecurityV2 : String

/-! ## The store behind `ariesstorage.Store` -/

/-- One `Put` call as the store received it, with the backend's verdict. -/
structure PutRecord where
  key : String
  value : Bytes
  accepted : Bool
  deriving DecidableEq, Repr

/-- State of the key-value store: its content, and the history of the `Put`
calls made on it (a ghost field, read by no operation). -/
structure Store where
  data : String → Option Bytes
  puts : List PutRecord

/-- An empty store. -/
def Store.empty : Store := ⟨fun _ => none, []⟩

/-- Error `storage.ErrDataNotFound`. -/
def ErrDataNotFound : String := "data not found"

/-- Method `Store.Put(k, v)`: overwrites the value under `k` when the backend
accepts the write, leaves the content alone when it refuses. -/
def Store.Put {ω : Type} (env : Env ω) (st : Store) (k : String) (v : Bytes) (x : ω) :
    Option String × Store × ω :=
  match env.backendPut k v x with
  | (some err, x1) => (some err, { st with puts := st.puts ++ [⟨k, v, false⟩] }, x1)
  | (none, x1) =>
    (none, { data := fun q => if q = k then some v else st.data q,
             puts := st.puts ++ [⟨k, v, true⟩] }, x1)

/-- Method `Store.Get(k)`: the value under `k`; fails when the backend is
unavailable or the key is absent. -/
def Store.Get {ω : Type} (env : Env ω) (st : Store) (k : String) (x : ω) : Except String Bytes :=
  match env.backendGet k x with
  | some err => .error err
  | none =>
    match st.data k with
    | none => .error ErrDataNotFound
    | some v => .ok v

/-! ## The service -/

/-- The record `Service`: the store and the cached JSON-LD contexts (key manager
and crypto are in the environment). -/
structure Service where
  store : Store
  cachedLDContext : List (String × RemoteDocument)

/-- Method `Service.createRootCapability`. -/
def Service.createRootCapability {ω : Type} (env : Env ω) (s : Service) (resourceID : String)
    (x : ω) : Except String Capability × Service × ω :=
  match env.newCryptoSigner x with
  | (.error err, x1) => (.error ("failed to create crypto signer: " ++ err), s, x1)
  | (.ok signer, x1) =>
    match env.uuidNewURN x1 with
    | (rootID, x2) =>
      match env.newCapability
          { SignatureSuite := signer, SuiteType := SignatureType,
            VerificationMethod := (env.createDIDKey signer.PublicKeyBytes).2 }
          [.WithID rootID, .WithInvocationTarget resourceID edvResource,
           .WithAllowedActions ["read", "write"]] x2 with
      | (.error err, x3) => (.error ("failed to create new root capability: " ++ err), s, x3)
      | (.ok rootCapability, x3) =>
        match env.jsonMarshal rootCapability with
        | .error err => (.error ("failed to marshal root capability: " ++ err), s, x3)
        | .ok rootCapabilityBytes =>
          match Store.Put env s.store rootCapability.ID rootCapabilityBytes x3 with
          | (some err, st1, x4) =>
            (.error ("failed to store root capability: " ++ err), { s with store := st1 }, x4)
          | (none, st1, x4) =>
            match Store.Put env st1 resourceID rootCapabilityBytes x4 with
            | (some err, st2, x5) =>
              (.error ("failed to store root capability: " ++ err), { s with store := st2 }, x5)
            | (none, st2, x5) => (.ok rootCapability, { s with store := st2 }, x5)

/-- Method `Service.Create`. -/
def Service.Create {ω : Type} (env : Env ω) (s : Service) (resourceID verificationMethod : String)
    (x : ω) : Except String Bytes × Service × ω :=
  match s.createRootCapability env resourceID x with
  | (.error err, s1, x1) => (.error err, s1, x1)
  | (.ok rootCapability, s1, x1) =>
    match env.newCryptoSigner x1 with
    | (.error err, x2) => (.error ("failed to create crypto signer: " ++ err), s1, x2)
    | (.ok signer, x2) =>
      match env.newCapability
          { SignatureSuite := signer, SuiteType := SignatureType,
            VerificationMethod := (env.createDIDKey signer.PublicKeyBytes).2 }
          [.WithParent rootCapability.ID, .WithInvoker verificationMethod,
           .WithAllowedActions ["read", "write"], .WithInvocationTarget resourceID edvResource,
           .WithCapabilityChain [rootCapability.ID]] x2 with
      | (.error err, x3) => (.error ("failed to create new capability: " ++ err), s1, x3)
      | (.ok capability, x3) =>
        match env.jsonMarshal capability with
        | .error err => (.error ("failed to marshal capability: " ++ err), s1, x3)
        | .ok capabilityBytes =>
          match Store.Put env s1.store capability.ID capabilityBytes x3 with
          | (some err, st1, x4) =>
            (.error ("failed to store capability: " ++ err), { s1 with store := st1 }, x4)
          | (none, st1, x4) => (.ok capabilityBytes, { s1 with store := st1 }, x4)

/-- Method `Service.getCapability`. -/
def Service.getCapability {ω : Type} (env : Env ω) (s : Service) (id : String) (x : ω) :
    Except String Capability :=
  match Store.Get env s.store id x with
  | .error err => .error err
  | .ok bytes => env.parseCapability bytes

/-! ## Request-time wiring -/

/-- The part of `http.Request` the service reads. -/
structure Request where
  Method : String
  deriving DecidableEq, Repr

/-- One call received by an `http.ResponseWriter`. -/
inductive ResponseCall where
  | WriteHeader (statusCode : Nat)
  | Write (body : Bytes)
  deriving DecidableEq, Repr

/-- An `http.ResponseWriter`: the calls made on it so far, in order, and the
error its `Write` reports (`none` while the connection is healthy). -/
structure ResponseWriter where
  calls : List ResponseCall
  writeErr : Option String
  deriving DecidableEq, Repr

/-- Method `ResponseWriter.WriteHeader`. -/
def ResponseWriter.WriteHeader (w : ResponseWriter) (statusCode : Nat) : ResponseWriter :=
  { w with calls := w.calls ++ [.WriteHeader statusCode] }

/-- Method `ResponseWriter.Write`: the writer afterwards and the error returned. -/
def ResponseWriter.Write (w : ResponseWriter) (body : Bytes) : ResponseWriter × Option String :=
  ({ w with calls := w.calls ++ [.Write body] }, w.writeErr)

/-- One call `logger.Errorf(format, args...)` as the package logger received it. -/
structure ErrorfCall where
  format : String
  args : List String
  deriving DecidableEq, Repr

/-- The package logger, as the `Errorf` calls made on it, in order.  What the
logging library prints for a call (the verbs of the format, the level filter) is
its own business and is not part of this state. -/
abbrev Logger := List ErrorfCall

/-- Method `logger.Errorf(format, args...)`: the call is recorded with the format
and the arguments exactly as passed. -/
def Logger.Errorf (lg : Logger) (format : String) (args : List String) : Logger :=
  lg ++ [{ format := format, args := args }]

/-- The record `logError`. -/
structure logError where
  w : ResponseWriter
  deriving DecidableEq, Repr

/-- Method `logError.Log`: returns the writer and the logger it leaves behind. -/
def logError.Log (l : logError) (err : String) (logger : Logger) : ResponseWriter × Logger :=
  match (l.w.WriteHeader StatusBadRequest).Write (bytesOf err) with
  | (w2, some errWrite) => (w2, logger.Errorf errWrite [])
  | (w2, none) => (w2, logger)

/-- A Go `map[string]T` that is iterated: association list with distinct keys. -/
abbrev GoMap (β : Type) := List (String × β)

/-- Assignment `m[k] = v`. -/
def GoMap.set {β : Type} (m : GoMap β) (k : String) (v : β) : GoMap β :=
  if m.any (fun e => e.1 = k) then m.map (fun e => if e.1 = k then (k, v) else e)
  else m ++ [(k, v)]

/-- The argument `zcapld.HTTPSigAuthConfig` as far as the service fills it from
its own state. -/
structure HTTPSigAuthConfig where
  LDDocumentLoaders : GoMap RemoteDocument
  ErrConsumer : logError
  deriving DecidableEq, Repr

/-- The argument `zcapld.InvocationExpectations`. -/
structure InvocationExpectations where
  Target : String
  RootCapability : String
  Action : String
  deriving DecidableEq, Repr

/-- The handler built by `zcapld.NewHTTPSigAuthHandler(config, expectations, next)`,
kept as the three arguments it closes over. -/
structure HTTPSigAuthHandler (ν : Type) where
  config : HTTPSigAuthConfig
  expectations : InvocationExpectations
  next : ν

/-- Method `Service.Handler`. -/
def Service.Handler {ω ν : Type} (env : Env ω) (s : Service) (resourceID : String)
    (req : Request) (w : ResponseWriter) (next : ν) (x : ω) :
    Except String (HTTPSigAuthHandler ν) :=
  match s.getCapability env resourceID x with
  | .error err =>
    .error ("failed to get root capability " ++ resourceID ++ " from db: " ++ err)
  | .ok rootCapability =>
    let action := if req.Method = MethodGet then "read" else "write"
    let cachingDL := s.cachedLDContext.foldl (fun dl e => GoMap.set dl e.1 e.2) []
    .ok { config := { LDDocumentLoaders := cachingDL, ErrConsumer := { w := w } },
          expectations :=
            { Target := resourceID, RootCapability := rootCapability.ID, Action := action },
          next := next }

/-! ## Context cache -/

/-- The loop of `loadJSONLDContext` over the remaining `contexts` entries
(`vocab`, `content`), with the map built so far. -/
def loadJSONLDContext.loop {ω : Type} (env : Env ω) :
    List (String × String) → GoMap RemoteDocument → Except String (GoMap RemoteDocument)
  | [], cached => .ok cached
  | ctx :: rest, cached =>
    match env.documentFromReader ctx.2 with
    | .error err => .error ("failed to read cached jsonld context: " ++ err)
    | .ok reader =>
      loadJSONLDContext.loop env rest
        (cached.set ctx.1 { DocumentURL := ctx.1, Document := reader })

/-- Function `loadJSONLDContext`. -/
def loadJSONLDContext {ω : Type} (env : Env ω) : Except String (GoMap RemoteDocument) :=
  loadJSONLDContext.loop env
    [("https://w3id.org/security/v1", env.w3idOrgSecurityV1),
     ("https://w3id.org/security/v2", env.w3idOrgSecurityV2)] []

/-- Function `New`; `storeProv` is `storeProv.OpenStore`. -/
def New {ω : Type} (env : Env ω) (storeProv : String → Except String Store) :
    Except String Service :=
  match storeProv storeName with
  | .error err => .error ("failed to open store " ++ storeName ++ ": " ++ err)
  | .ok store =>
    match loadJSONLDContext env with
    | .error err => .error ("failed create json ld document loader: " ++ err)
    | .ok ctx => .ok { store := store, cachedLDContext := ctx }

/-! ## Vocabulary of the specification -/

/-- The safe (retrieval) methods of HTTP, RFC 7231 section 4.2.1, as the
specification words the action rule. -/
def specSafeMethod (m : String) : Bool :=
  m = "GET" || m = "HEAD" || m = "OPTIONS" || m = "TRACE"

/-- The action the specification derives from a request method. -/
def specRequiredAction (m : String) : String :=
  if specSafeMethod m then "read" else "write"

/-- Contract of `zcapld.NewCapability` the service relies on: a capability it
returns carries the values the options set (the zero value for an option that
was not given), and the id given by `WithID` when there is one. -/
def HonoursOptions {ω : Type} (env : Env ω) : Prop :=
  ∀ signer opts x c x1, env.newCapability signer opts x = (.ok c, x1) →
    (∀ id, (collectOptions opts).ID = some id → c.ID = id) ∧
    c.Parent = (collectOptions opts).Parent ∧
    c.Invoker = (collectOptions opts).Invoker ∧
    c.AllowedAction = (collectOptions opts).AllowedAction ∧
    c.InvocationTarget = (collectOptions opts).InvocationTarget ∧
    c.CapabilityChain = (collectOptions opts).CapabilityChain

/-- Contract of `zcapld.ParseCapability` and `json.Marshal` the service relies
on: parsing what was marshalled gives the capability back. -/
def ParseInvertsMarshal {ω : Type} (env : Env ω) : Prop :=
  ∀ c b, env.jsonMarshal c = .ok b → env.parseCapability b = .ok c

/-- Every `Put` but the last one in a run of calls was accepted. -/
def stopsAtFirstRefusal (run : List PutRecord) : Bool :=
  run.dropLast.all (fun r => r.accepted)

/-! ## A concrete environment

A world that hands out identifiers from a list and takes the backend's verdicts
on successive `Put` calls from a script; capabilities are serialised as
`|`-separated fields. -/

/-- World state of the concrete environment. -/
structure DemoWorld where
  ids : List String
  putVerdicts : List (Option String)
  deriving DecidableEq, Repr

/-- Next identifier of the world. -/
def DemoWorld.nextID (x : DemoWorld) : String × DemoWorld :=
  match x.ids with
  | [] => ("urn:uuid:0", x)
  | i :: rest => (i, { x with ids := rest })

/-- Split a character list at every separator. -/
def demoSplit (sep : Char) : List Char → List (List Char)
  | [] => [[]]
  | c :: cs =>
    if c = sep then [] :: demoSplit sep cs
    else
      match demoSplit sep cs with
      | [] => [[c]]
      | f :: fs => (c :: f) :: fs

/-- The fields of a text between separators. -/
def demoFields (sep : Char) (s : String) : List String :=
  (demoSplit sep s.data).map String.mk

/-- A comma-separated list; the empty text is the empty list. -/
def demoItems (s : String) : List String :=
  if s = "" then [] else demoFields ',' s

/-- Serialised form of a capability in the concrete environment. -/
def demoEncode (c : Capability) : Bytes :=
  "|".intercalate
    [c.ID, c.Invoker, c.Parent, ",".intercalate c.AllowedAction, c.InvocationTarget.ID,
     c.InvocationTarget.Type_, ",".intercalate c.CapabilityChain, ",".intercalate c.Proof]

/-- Reading a serialised capability back. -/
def demoDecode (b : Bytes) : Option Capability :=
  match demoFields '|' b with
  | [id, invoker, parent, actions, target, targetType, chain, proof] =>
    some { ID := id, Invoker := invoker, Parent := parent, AllowedAction := demoItems actions,
           InvocationTarget := ⟨target, targetType⟩, CapabilityChain := demoItems chain,
           Proof := demoItems proof }
  | _ => none

/-- The concrete environment. -/
def demoEnv : Env DemoWorld where
  newCryptoSigner x := (.ok ⟨"z6MkDemoKey"⟩, x)
  uuidNewURN x := x.nextID
  createDIDKey pk := ("did:key:" ++ pk, "did:key:" ++ pk ++ "#" ++ pk)
  newCapability signer opts x :=
    match (collectOptions opts).ID with
    | some id =>
      (.ok { ID := id, Invoker := (collectOptions opts).Invoker,
             Parent := (collectOptions opts).Parent,
             AllowedAction := (collectOptions opts).AllowedAction,
             InvocationTarget := (collectOptions opts).InvocationTarget,
             CapabilityChain := (collectOptions opts).CapabilityChain,
             Proof := [signer.VerificationMethod] }, x)
    | none =>
      (.ok { ID := x.nextID.1, Invoker := (collectOptions opts).Invoker,
             Parent := (collectOptions opts).Parent,
             AllowedAction := (collectOptions opts).AllowedAction,
             InvocationTarget := (collectOptions opts).InvocationTarget,
             CapabilityChain := (collectOptions opts).CapabilityChain,
             Proof := [signer.VerificationMethod] }, x.nextID.2)
  jsonMarshal c :=
    if demoDecode (demoEncode c) = some c then .ok (demoEncode c)
    else .error "json: unsupported value"
  parseCapability b :=
    match demoDecode b with
    | some c => .ok c
    | none => .error "invalid capability"
  backendPut _ _ x :=
    match x.putVerdicts with
    | [] => (none, x)
    | v :: rest => (v, { x with putVerdicts := rest })
  backendGet _ _ := none
  documentFromReader content := if content = "" then .error "EOF" else .ok content
  w3idOrgSecurityV1 := "security-v1-vocabulary"
  w3idOrgSecurityV2 := "security-v2-vocabulary"

/-- The concrete environment with an empty second vocabulary document. -/
def demoEnvBrokenV2 : Env DemoWorld := { demoEnv with w3idOrgSecurityV2 := "" }

/-- A service over an empty store. -/
def demoService : Service := { store := Store.empty, cachedLDContext := [] }

/-- A world with three identifiers left and a healthy backend. -/
def demoWorld : DemoWorld :=
  { ids := ["urn:uuid:root-1", "urn:uuid:zcap-1", "urn:uuid:root-2", "urn:uuid:zcap-2"],
    putVerdicts := [] }

/-- A world whose backend accepts one `Put` and refuses the next. -/
def demoWorldOutage : DemoWorld :=
  { ids := ["urn:uuid:root-1", "urn:uuid:zcap-1"],
    putVerdicts := [none, some "backend unavailable"] }

/-- The service after one `Create` for `vault-7` on the empty store. -/
def demoProvisioned : Service :=
  (demoService.Create demoEnv "vault-7" "did:key:z6MkInvoker" demoWorld).2.1

/-- The world after that first `Create`. -/
def demoWorldAfter : DemoWorld :=
  (demoService.Create demoEnv "vault-7" "did:key:z6MkInvoker" demoWorld).2.2

/-! ## Lemmas on the store and on issuance -/

theorem Store.Put_accepted {ω : Type} (env : Env ω) (st : Store) (k : String) (v : Bytes)
    (x x1 : ω) (h : env.backendPut k v x = (none, x1)) :
    Store.Put env st k v x =
      (none, { data := fun q => if q = k then some v else st.data q,
               puts := st.puts ++ [⟨k, v, true⟩] }, x1) := by
  simp [Store.Put, h]

theorem Store.Put_refused {ω : Type} (env : Env ω) (st : Store) (k : String) (v : Bytes)
    (x x1 : ω) (err : String) (h : env.backendPut k v x = (some err, x1)) :
    Store.Put env st k v x =
      (some err, { st with puts := st.puts ++ [⟨k, v, false⟩] }, x1) := by
  simp [Store.Put, h]

theorem createRootCapability_ok {ω : Type} (env : Env ω) (s : Service) (R : String) (x : ω)
    (C : Capability) (s1 : Service) (x1 : ω)
    (h : s.createRootCapability env R x = (.ok C, s1, x1)) :
    ∃ signer y1 rootID y2 y3 b y4,
      env.newCryptoSigner x = (.ok signer, y1) ∧ env.uuidNewURN y1 = (rootID, y2) ∧
      env.newCapability
          { SignatureSuite := signer, SuiteType := SignatureType,
            VerificationMethod := (env.createDIDKey signer.PublicKeyBytes).2 }
          [.WithID rootID, .WithInvocationTarget R edvResource,
           .WithAllowedActions ["read", "write"]] y2 = (.ok C, y3) ∧
      env.jsonMarshal C = .ok b ∧
      env.backendPut C.ID b y3 = (none, y4) ∧ env.backendPut R b y4 = (none, x1) ∧
      s1.cachedLDContext = s.cachedLDContext ∧
      s1.store.data = (fun q => if q = R then some b else if q = C.ID then some b else s.store.data q) ∧
      s1.store.puts = s.store.puts ++ [⟨C.ID, b, true⟩, ⟨R, b, true⟩] := by
  unfold Service.createRootCapability at h
  rcases hs : env.newCryptoSigner x with ⟨_ | signer, y1⟩
  · simp [hs] at h
  rcases hu : env.uuidNewURN y1 with ⟨rootID, y2⟩
  rcases hn : env.newCapability
          { SignatureSuite := signer, SuiteType := SignatureType,
            VerificationMethod := (env.createDIDKey signer.PublicKeyBytes).2 }
          [.WithID rootID, .WithInvocationTarget R edvResource,
           .WithAllowedActions ["read", "write"]] y2 with ⟨_ | rc, y3⟩
  · simp [hs, hu, hn] at h
  rcases hm : env.jsonMarshal rc with _ | b
  · simp [hs, hu, hn, hm] at h
  rcases hp1 : env.backendPut rc.ID b y3 with ⟨_ | e1, y4⟩
  · rcases hp2 : env.backendPut R b y4 with ⟨_ | e2, y5⟩
    · simp [hs, hu, hn, hm, Store.Put_accepted env _ _ _ _ _ hp1,
        Store.Put_accepted env _ _ _ _ _ hp2] at h
      obtain ⟨h1, h2, h3⟩ := h
      subst h1 h2 h3
      exact ⟨signer, y1, rootID, y2, y3, b, y4, rfl, hu, hn, hm, hp1, hp2, rfl, rfl, by simp⟩
    · simp [hs, hu, hn, hm, Store.Put_accepted env _ _ _ _ _ hp1,
        Store.Put_refused env _ _ _ _ _ _ hp2] at h
  · simp [hs, hu, hn, hm, Store.Put_refused env _ _ _ _ _ _ hp1] at h

theorem Create_ok {ω : Type} (env : Env ω) (s : Service) (R I : String) (x : ω)
    (b : Bytes) (s2 : Service) (x2 : ω)
    (h : s.Create env R I x = (.ok b, s2, x2)) :
    ∃ root s1 x1 signer y2 D y3,
      s.createRootCapability env R x = (.ok root, s1, x1) ∧
      env.newCryptoSigner x1 = (.ok signer, y2) ∧
      env.newCapability
          { SignatureSuite := signer, SuiteType := SignatureType,
            VerificationMethod := (env.createDIDKey signer.PublicKeyBytes).2 }
          [.WithParent root.ID, .WithInvoker I, .WithAllowedActions ["read", "write"],
           .WithInvocationTarget R edvResource, .WithCapabilityChain [root.ID]] y2
        = (.ok D, y3) ∧
      env.jsonMarshal D = .ok b ∧
      env.backendPut D.ID b y3 = (none, x2) ∧
      s2.cachedLDContext = s1.cachedLDContext ∧
      s2.store.data = (fun q => if q = D.ID then some b else s1.store.data q) ∧
      s2.store.puts = s1.store.puts ++ [⟨D.ID, b, true⟩] := by
  unfold Service.Create at h
  rcases hr : s.createRootCapability env R x with ⟨_ | root, s1, x1⟩
  · simp [hr] at h
  rcases hs : env.newCryptoSigner x1 with ⟨_ | signer, y2⟩
  · simp [hr, hs] at h
  rcases hn : env.newCapability
          { SignatureSuite := signer, SuiteType := SignatureType,
            VerificationMethod := (env.createDIDKey signer.PublicKeyBytes).2 }
          [.WithParent root.ID, .WithInvoker I, .WithAllowedActions ["read", "write"],
           .WithInvocationTarget R edvResource, .WithCapabilityChain [root.ID]] y2
    with ⟨_ | D, y3⟩
  · simp [hr, hs, hn] at h
  rcases hm : env.jsonMarshal D with _ | b0
  · simp [hr, hs, hn, hm] at h
  rcases hp : env.backendPut D.ID b0 y3 with ⟨_ | e, y4⟩
  · simp [hr, hs, hn, hm, Store.Put_accepted env _ _ _ _ _ hp] at h
    obtain ⟨h1, h2, h3⟩ := h
    subst h1 h2 h3
    exact ⟨root, s1, x1, signer, y2, D, y3, rfl, hs, hn, hm, hp, rfl, rfl, rfl⟩
  · simp [hr, hs, hn, hm, Store.Put_refused env _ _ _ _ _ _ hp] at h

theorem Store.Get_healthy {ω : Type} (env : Env ω) (st : Store) (k : String) (v : Bytes) (y : ω)
    (hb : env.backendGet k y = none) (hd : st.data k = some v) :
    Store.Get env st k y = .ok v := by
  simp [Store.Get, hb, hd]

theorem demoEnv_honours : HonoursOptions demoEnv := by
  intro signer opts x c x1 h
  simp only [demoEnv] at h
  split at h <;> rename_i hid
  · simp only [Prod.mk.injEq, Except.ok.injEq] at h
    obtain ⟨h, -⟩ := h
    subst h
    simp [hid]
  · simp only [Prod.mk.injEq, Except.ok.injEq] at h
    obtain ⟨h, -⟩ := h
    subst h
    simp [hid]

theorem demoEnv_parseInvertsMarshal : ParseInvertsMarshal demoEnv := by
  intro c b h
  simp only [demoEnv] at h ⊢
  split at h
  · rename_i hd
    simp only [Except.ok.injEq] at h
    subst h
    simp [hd]
  · simp at h

theorem createRootCapability_cases {ω : Type} (env : Env ω) (s : Service) (R : String) (x : ω) :
    (∃ e, (s.createRootCapability env R x).1 = .error e ∧
      (s.createRootCapability env R x).2.1 = s) ∨
    (∃ (root : Capability) (b : Bytes) (e : String), (s.createRootCapability env R x).1 = .error e ∧
      (s.createRootCapability env R x).2.1.store.puts = s.store.puts ++ [⟨root.ID, b, false⟩]) ∨
    (∃ (root : Capability) (b : Bytes) (e : String), (s.createRootCapability env R x).1 = .error e ∧
      (s.createRootCapability env R x).2.1.store.puts
        = s.store.puts ++ [⟨root.ID, b, true⟩, ⟨R, b, false⟩]) ∨
    (∃ (root : Capability) (b : Bytes), (s.createRootCapability env R x).1 = .ok root ∧
      (s.createRootCapability env R x).2.1.store.puts
        = s.store.puts ++ [⟨root.ID, b, true⟩, ⟨R, b, true⟩]) := by
  rcases hs : env.newCryptoSigner x with ⟨_ | signer, y1⟩
  · exact Or.inl ⟨_, by simp [Service.createRootCapability, hs]; rfl,
      by simp [Service.createRootCapability, hs]⟩
  rcases hu : env.uuidNewURN y1 with ⟨rootID, y2⟩
  rcases hn : env.newCapability
          { SignatureSuite := signer, SuiteType := SignatureType,
            VerificationMethod := (env.createDIDKey signer.PublicKeyBytes).2 }
          [.WithID rootID, .WithInvocationTarget R edvResource,
           .WithAllowedActions ["read", "write"]] y2 with ⟨_ | rc, y3⟩
  · exact Or.inl ⟨_, by simp [Service.createRootCapability, hs, hu, hn]; rfl,
      by simp [Service.createRootCapability, hs, hu, hn]⟩
  rcases hm : env.jsonMarshal rc with _ | b
  · exact Or.inl ⟨_, by simp [Service.createRootCapability, hs, hu, hn, hm]; rfl,
      by simp [Service.createRootCapability, hs, hu, hn, hm]⟩
  rcases hp1 : env.backendPut rc.ID b y3 with ⟨_ | e1, y4⟩
  · rcases hp2 : env.backendPut R b y4 with ⟨_ | e2, y5⟩
    · exact Or.inr (Or.inr (Or.inr ⟨rc, b,
        by simp [Service.createRootCapability, hs, hu, hn, hm,
          Store.Put_accepted env _ _ _ _ _ hp1, Store.Put_accepted env _ _ _ _ _ hp2],
        by simp [Service.createRootCapability, hs, hu, hn, hm,
          Store.Put_accepted env _ _ _ _ _ hp1, Store.Put_accepted env _ _ _ _ _ hp2]⟩))
    · exact Or.inr (Or.inr (Or.inl ⟨rc, b, _,
        by simp [Service.createRootCapability, hs, hu, hn, hm,
          Store.Put_accepted env _ _ _ _ _ hp1, Store.Put_refused env _ _ _ _ _ _ hp2]; rfl,
        by simp [Service.createRootCapability, hs, hu, hn, hm,
          Store.Put_accepted env _ _ _ _ _ hp1, Store.Put_refused env _ _ _ _ _ _ hp2]⟩))
  · exact Or.inr (Or.inl ⟨rc, b, _,
        by simp [Service.createRootCapability, hs, hu, hn, hm,
          Store.Put_refused env _ _ _ _ _ _ hp1]; rfl,
        by simp [Service.createRootCapability, hs, hu, hn, hm,
          Store.Put_refused env _ _ _ _ _ _ hp1]⟩)

theorem Create_of_root_error {ω : Type} (env : Env ω) (s : Service) (R I : String) (x : ω)
    (e : String) (h : (s.createRootCapability env R x).1 = .error e) :
    s.Create env R I x =
      (.error e, (s.createRootCapability env R x).2.1, (s.createRootCapability env R x).2.2) := by
  unfold Service.Create
  rcases hr : s.createRootCapability env R x with ⟨_ | root, s1, x1⟩
  · rw [hr] at h
    simp only [Except.error.injEq] at h
    subst h
    rfl
  · rw [hr] at h
    simp at h

theorem Create_cases_of_root_ok {ω : Type} (env : Env ω) (s : Service) (R I : String) (x : ω)
    (root : Capability) (h : (s.createRootCapability env R x).1 = .ok root) :
    (∃ e, (s.Create env R I x).1 = .error e ∧
      (s.Create env R I x).2.1 = (s.createRootCapability env R x).2.1) ∨
    (∃ (D : Capability) (b : Bytes) (e : String), (s.Create env R I x).1 = .error e ∧
      (s.Create env R I x).2.1.store.puts
        = (s.createRootCapability env R x).2.1.store.puts ++ [⟨D.ID, b, false⟩]) ∨
    (∃ (D : Capability) (b : Bytes), (s.Create env R I x).1 = .ok b ∧
      (s.Create env R I x).2.1.store.puts
        = (s.createRootCapability env R x).2.1.store.puts ++ [⟨D.ID, b, true⟩]) := by
  rcases hr : s.createRootCapability env R x with ⟨_ | root0, s1, x1⟩
  · rw [hr] at h
    simp at h
  rw [hr] at h
  simp only [Except.ok.injEq] at h
  subst h
  rcases hs : env.newCryptoSigner x1 with ⟨_ | signer, y2⟩
  · exact Or.inl ⟨_, by simp [Service.Create, hr, hs]; rfl, by simp [Service.Create, hr, hs]⟩
  rcases hn : env.newCapability
          { SignatureSuite := signer, SuiteType := SignatureType,
            VerificationMethod := (env.createDIDKey signer.PublicKeyBytes).2 }
          [.WithParent root0.ID, .WithInvoker I, .WithAllowedActions ["read", "write"],
           .WithInvocationTarget R edvResource, .WithCapabilityChain [root0.ID]] y2
    with ⟨_ | D, y3⟩
  · exact Or.inl ⟨_, by simp [Service.Create, hr, hs, hn]; rfl,
      by simp [Service.Create, hr, hs, hn]⟩
  rcases hm : env.jsonMarshal D with _ | b0
  · exact Or.inl ⟨_, by simp [Service.Create, hr, hs, hn, hm]; rfl,
      by simp [Service.Create, hr, hs, hn, hm]⟩
  rcases hp : env.backendPut D.ID b0 y3 with ⟨_ | e, y4⟩
  · exact Or.inr (Or.inr ⟨D, b0,
      by simp [Service.Create, hr, hs, hn, hm, Store.Put_accepted env _ _ _ _ _ hp],
      by simp [Service.Create, hr, hs, hn, hm, Store.Put_accepted env _ _ _ _ _ hp]⟩)
  · exact Or.inr (Or.inl ⟨D, b0, _,
      by simp [Service.Create, hr, hs, hn, hm, Store.Put_refused env _ _ _ _ _ _ hp]; rfl,
      by simp [Service.Create, hr, hs, hn, hm, Store.Put_refused env _ _ _ _ _ _ hp]⟩)

theorem getCapability_of_data {ω : Type} (env : Env ω) (hp : ParseInvertsMarshal env)
    (s : Service) (k : String) (c : Capability) (b : Bytes) (z : ω)
    (hm : env.jsonMarshal c = .ok b) (hd : s.store.data k = some b)
    (hb : env.backendGet k z = none) :
    s.getCapability env k z = .ok c := by
  simp [Service.getCapability, Store.Get_healthy env _ _ _ _ hb hd, hp c b hm]

theorem Handler_of_getCapability {ω ν : Type} (env : Env ω) (s : Service) (R : String)
    (req : Request) (w : ResponseWriter) (next : ν) (z : ω) (root : Capability)
    (h : s.getCapability env R z = .ok root) :
    ∃ hd, s.Handler env R req w next z = .ok hd ∧ hd.expectations.RootCapability = root.ID ∧
      hd.expectations.Target = R := by
  simp [Service.Handler, h]

theorem Create_ok_full {ω : Type} (env : Env ω) (s : Service) (R I : String) (x : ω)
    (b : Bytes) (s2 : Service) (x2 : ω)
    (h : s.Create env R I x = (.ok b, s2, x2)) :
    ∃ root t y rb signer z1 D z2,
      s.createRootCapability env R x = (.ok root, t, y) ∧
      env.jsonMarshal root = .ok rb ∧
      env.newCapability
          { SignatureSuite := signer, SuiteType := SignatureType,
            VerificationMethod := (env.createDIDKey signer.PublicKeyBytes).2 }
          [.WithParent root.ID, .WithInvoker I, .WithAllowedActions ["read", "write"],
           .WithInvocationTarget R edvResource, .WithCapabilityChain [root.ID]] z1
        = (.ok D, z2) ∧
      env.jsonMarshal D = .ok b ∧
      s2.store.puts
        = s.store.puts ++ [⟨root.ID, rb, true⟩, ⟨R, rb, true⟩, ⟨D.ID, b, true⟩] ∧
      s2.store.data
        = (fun q => if q = D.ID then some b else if q = R then some rb
                    else if q = root.ID then some rb else s.store.data q) := by
  obtain ⟨root, t, y, signer, z1, D, z2, hr, -, hn, hm, -, -, hd, hputs⟩ :=
    Create_ok env s R I x b s2 x2 h
  obtain ⟨rsigner, w1, rootID, w2, w3, rb, w4, -, -, -, hrm, -, -, -, hrd, hrputs⟩ :=
    createRootCapability_ok env s R x root t y hr
  refine ⟨root, t, y, rb, signer, z1, D, z2, hr, hrm, hn, hm, ?_, ?_⟩
  · rw [hputs, hrputs]
    simp
  · rw [hd, hrd]

theorem getCapability_after_Create {ω : Type} (env : Env ω) (hp : ParseInvertsMarshal env)
    (s2 : Service) (k : String) (root D : Capability) (rb b : Bytes) (z : ω)
    (hrm : env.jsonMarshal root = .ok rb) (hm : env.jsonMarshal D = .ok b)
    (hkey : s2.store.data k = some (if k = D.ID then b else rb))
    (hz : env.backendGet k z = none) :
    s2.getCapability env k z = .ok (if k = D.ID then D else root) := by
  by_cases h1 : k = D.ID
  · rw [if_pos h1] at hkey ⊢
    exact getCapability_of_data env hp s2 k D b z hm hkey hz
  · rw [if_neg h1] at hkey ⊢
    exact getCapability_of_data env hp s2 k root rb z hrm hkey hz

theorem Create_data_under_resource (s2 s : Service) (R : String)
    (root D : Capability) (rb b : Bytes)
    (hdata : s2.store.data
        = (fun q => if q = D.ID then some b else if q = R then some rb
                    else if q = root.ID then some rb else s.store.data q)) :
    s2.store.data R = some (if R = D.ID then b else rb) := by
  rw [hdata]
  show (if R = D.ID then some b else if R = R then some rb
        else if R = root.ID then some rb else s.store.data R)
      = some (if R = D.ID then b else rb)
  by_cases h1 : R = D.ID
  · rw [if_pos h1, if_pos h1]
  · rw [if_neg h1, if_neg h1, if_pos rfl]

/-! ## The claims -/

/-- C1. When `createRootCapability(R)` succeeds with capability `C` (and
`NewCapability` honours its options), `C` targets resource `R`, and the store it
leaves holds the bytes `json.Marshal(C)` under both keys `C.ID` and `R`; a `Get`
of either key on an available backend returns exactly those bytes. -/
theorem createRootCapability_stores_root {ω : Type} (env : Env ω) (hc : HonoursOptions env)
    (s : Service) (R : String) (x : ω) (C : Capability) (s1 : Service) (x1 : ω)
    (h : s.createRootCapability env R x = (.ok C, s1, x1)) :
    C.InvocationTarget.ID = R ∧
    ∃ b, env.jsonMarshal C = .ok b ∧
      s1.store.data C.ID = some b ∧ s1.store.data R = some b ∧
      ∀ y, env.backendGet C.ID y = none → env.backendGet R y = none →
        Store.Get env s1.store C.ID y = .ok b ∧ Store.Get env s1.store R y = .ok b := by
  obtain ⟨signer, y1, rootID, y2, y3, b, y4, -, -, hn, hm, -, -, -, hd, -⟩ :=
    createRootCapability_ok env s R x C s1 x1 h
  have hC := hc _ _ _ _ _ hn
  have hR : s1.store.data R = some b := by simp [hd]
  have hI : s1.store.data C.ID = some b := by
    rw [hd]
    by_cases hq : C.ID = R <;> simp [hq]
  refine ⟨?_, b, hm, hI, hR, fun y h1 h2 => ⟨?_, ?_⟩⟩
  · rw [hC.2.2.2.2.1]
    simp [collectOptions, CapabilityOption.apply]
  · exact Store.Get_healthy env _ _ _ _ h1 hI
  · exact Store.Get_healthy env _ _ _ _ h2 hR

/-- Witness of C1 in the concrete environment, resource `vault-7`. -/
theorem createRootCapability_stores_root_witness :
    ∃ C s1 x1, demoService.createRootCapability demoEnv "vault-7" demoWorld = (.ok C, s1, x1) ∧
      C.InvocationTarget.ID = "vault-7" ∧
      ∃ b, demoEnv.jsonMarshal C = .ok b ∧
        s1.store.data C.ID = some b ∧ s1.store.data "vault-7" = some b ∧
        ∀ y, demoEnv.backendGet C.ID y = none → demoEnv.backendGet "vault-7" y = none →
          Store.Get demoEnv s1.store C.ID y = .ok b ∧
          Store.Get demoEnv s1.store "vault-7" y = .ok b :=
  ⟨_, _, _, rfl,
    createRootCapability_stores_root demoEnv demoEnv_honours demoService "vault-7" demoWorld
      _ _ _ rfl⟩

/-- C2. When `Create(R, I)` succeeds (and `NewCapability` honours its options),
the bytes it returns are `json.Marshal(D)` for a capability `D` with invoker `I`,
parent `root.ID` and capability chain `[root.ID]`, where `root` is the root
capability minted by `createRootCapability` in the same call; the store it
leaves holds those bytes under key `D.ID`. -/
theorem Create_returns_delegated {ω : Type} (env : Env ω) (hc : HonoursOptions env)
    (s : Service) (R I : String) (x : ω) (b : Bytes) (s2 : Service) (x2 : ω)
    (h : s.Create env R I x = (.ok b, s2, x2)) :
    ∃ root s1 x1 D,
      s.createRootCapability env R x = (.ok root, s1, x1) ∧
      env.jsonMarshal D = .ok b ∧
      D.Invoker = I ∧ D.Parent = root.ID ∧ D.CapabilityChain = [root.ID] ∧
      s2.store.data D.ID = some b := by
  obtain ⟨root, s1, x1, signer, y2, D, y3, hr, -, hn, hm, -, -, hd, -⟩ :=
    Create_ok env s R I x b s2 x2 h
  have hD := hc _ _ _ _ _ hn
  refine ⟨root, s1, x1, D, hr, hm, ?_, ?_, ?_, ?_⟩
  · rw [hD.2.2.1]
    simp [collectOptions, CapabilityOption.apply]
  · rw [hD.2.1]
    simp [collectOptions, CapabilityOption.apply]
  · rw [hD.2.2.2.2.2]
    simp [collectOptions, CapabilityOption.apply]
  · simp [hd]

/-- Witness of C2 in the concrete environment. -/
theorem Create_returns_delegated_witness :
    ∃ b s2 x2, demoService.Create demoEnv "vault-7" "did:key:z6MkInvoker" demoWorld
        = (.ok b, s2, x2) ∧
      ∃ root s1 x1 D,
        demoService.createRootCapability demoEnv "vault-7" demoWorld = (.ok root, s1, x1) ∧
        demoEnv.jsonMarshal D = .ok b ∧
        D.Invoker = "did:key:z6MkInvoker" ∧ D.Parent = root.ID ∧
        D.CapabilityChain = [root.ID] ∧ s2.store.data D.ID = some b :=
  ⟨_, _, _, rfl,
    Create_returns_delegated demoEnv demoEnv_honours demoService "vault-7"
      "did:key:z6MkInvoker" demoWorld _ _ _ rfl⟩

/-- C3. `Handler(R, ...)` returns an error, and no handler, whenever the store
holds nothing under key `R`, and whenever the bytes held under `R` fail
`ParseCapability`; when it does return a handler, `getCapability(R)` resolved a
root capability, parsed from the bytes stored under `R`, and the handler is bound
to that capability's id.  On the empty store, where no resource was ever
provisioned, `Handler` fails. -/
theorem Handler_requires_root {ω ν : Type} (env : Env ω) (s : Service) (R : String)
    (req : Request) (w : ResponseWriter) (next : ν) (x : ω) :
    (s.store.data R = none → ∃ e, s.Handler env R req w next x = .error e) ∧
    (∀ b e, s.store.data R = some b → env.parseCapability b = .error e →
      ∃ e1, s.Handler env R req w next x = .error e1) ∧
    (∀ hd, s.Handler env R req w next x = .ok hd →
      ∃ root b, s.getCapability env R x = .ok root ∧ s.store.data R = some b ∧
        env.parseCapability b = .ok root ∧ hd.expectations.RootCapability = root.ID) ∧
    (∃ e, ({ s with store := Store.empty }).Handler env R req w next x = .error e) := by
  refine ⟨?_, ?_, ?_, ?_⟩
  · intro h
    cases hb : env.backendGet R x <;>
      simp [Service.Handler, Service.getCapability, Store.Get, h, hb]
  · intro b e h hp
    cases hb : env.backendGet R x <;>
      simp [Service.Handler, Service.getCapability, Store.Get, h, hb, hp]
  · intro hd h
    unfold Service.Handler at h
    cases hg : s.getCapability env R x with
    | error e => simp [hg] at h
    | ok root =>
      simp only [hg, Except.ok.injEq] at h
      subst h
      refine ⟨root, ?_⟩
      unfold Service.getCapability Store.Get at hg
      cases hb : env.backendGet R x with
      | some e => simp [hb] at hg
      | none =>
        cases hv : s.store.data R with
        | none => simp [hb, hv] at hg
        | some b =>
          simp only [hb, hv] at hg
          exact ⟨b, rfl, rfl, hg, rfl⟩
  · cases hb : env.backendGet R x <;>
      simp [Service.Handler, Service.getCapability, Store.Get, Store.empty, hb]

/-- Witness of C3: in the concrete environment `Handler` fails on a service whose
store holds nothing under `vault-7`, and on one whose store holds bytes that do
not parse. -/
theorem Handler_requires_root_witness :
    (∃ e, demoService.Handler demoEnv "vault-7" ⟨"GET"⟩ ⟨[], none⟩ () demoWorld = .error e) ∧
    (∃ e, ({ demoService with store := ⟨fun _ => some "garbage", []⟩ }).Handler demoEnv
        "vault-7" ⟨"GET"⟩ ⟨[], none⟩ () demoWorld = .error e) :=
  ⟨(Handler_requires_root demoEnv demoService "vault-7" ⟨"GET"⟩ ⟨[], none⟩ () demoWorld).1 rfl,
   (Handler_requires_root demoEnv { demoService with store := ⟨fun _ => some "garbage", []⟩ }
      "vault-7" ⟨"GET"⟩ ⟨[], none⟩ () demoWorld).2.1 "garbage" "invalid capability" rfl rfl⟩

/-- C4, as the claim states it, fails: for a `HEAD` request, a safe method, the
handler built on a provisioned resource expects action `write`, where the
specification's rule gives `read`. -/
theorem Handler_action_HEAD_is_write :
    ∃ hd, demoProvisioned.Handler demoEnv "vault-7" ⟨"HEAD"⟩ ⟨[], none⟩ () demoWorld = .ok hd ∧
      hd.expectations.Action = "write" ∧ specSafeMethod "HEAD" = true ∧
      hd.expectations.Action ≠ specRequiredAction "HEAD" :=
  ⟨_, rfl, rfl, by decide, by decide⟩

/-- C4, amended. The action `Handler` puts into the invocation expectations is
`read` exactly when the request method is `GET`, and `write` for every other
method; no other action is produced. -/
theorem Handler_action_read_iff_GET {ω ν : Type} (env : Env ω) (s : Service) (R : String)
    (req : Request) (w : ResponseWriter) (next : ν) (x : ω) (hd : HTTPSigAuthHandler ν)
    (h : s.Handler env R req w next x = .ok hd) :
    hd.expectations.Action = (if req.Method = "GET" then "read" else "write") ∧
    (hd.expectations.Action = "read" ∨ hd.expectations.Action = "write") := by
  unfold Service.Handler at h
  cases hg : s.getCapability env R x with
  | error e => simp [hg] at h
  | ok root =>
    simp only [hg, Except.ok.injEq] at h
    subst h
    by_cases hm : req.Method = "GET" <;> simp [hm, MethodGet]

/-- Witness of amended C4: a `GET` request on the provisioned resource. -/
theorem Handler_action_read_iff_GET_witness :
    ∃ hd, demoProvisioned.Handler demoEnv "vault-7" ⟨"GET"⟩ ⟨[], none⟩ () demoWorld = .ok hd ∧
      hd.expectations.Action = (if (⟨"GET"⟩ : Request).Method = "GET" then "read" else "write") ∧
      (hd.expectations.Action = "read" ∨ hd.expectations.Action = "write") :=
  ⟨_, rfl,
    Handler_action_read_iff_GET demoEnv demoProvisioned "vault-7" ⟨"GET"⟩ ⟨[], none⟩ ()
      demoWorld _ rfl⟩

/-- C5. For every error `e`, `logError.Log` bound to writer `w` makes exactly two
calls on `w`, after whatever was called before: `WriteHeader(400)` and then
`Write` with the bytes of `e`'s message. -/
theorem logError_Log_response (w : ResponseWriter) (e : String) (logger : Logger) :
    ((logError.mk w).Log e logger).1.calls =
      w.calls ++ [.WriteHeader 400, .Write (bytesOf e)] ∧
    (w.calls = [] →
      ((logError.mk w).Log e logger).1.calls = [.WriteHeader 400, .Write e]) := by
  have h : ((logError.mk w).Log e logger).1.calls =
      w.calls ++ [.WriteHeader 400, .Write (bytesOf e)] := by
    unfold logError.Log ResponseWriter.Write ResponseWriter.WriteHeader
    cases hw : w.writeErr <;> simp [StatusBadRequest]
  refine ⟨h, fun h0 => ?_⟩
  rw [h, h0]
  rfl

/-- Witness of C5: a fresh, healthy writer and the error `boom`. -/
theorem logError_Log_response_witness :
    ((logError.mk ⟨[], none⟩).Log "boom" []).1.calls = [.WriteHeader 400, .Write "boom"] :=
  (logError_Log_response ⟨[], none⟩ "boom" []).2 rfl

/-- C6, as the claim states it, fails: on a healthy writer `logError.Log` writes
the response and makes no call on the logger, so no entry is produced; and on a
writer whose `Write` fails with `broken pipe`, the one `Errorf` call carries that
write error as its format, not the error `boom` handed to `Log`. -/
theorem logError_Log_silent_on_success :
    ((logError.mk ⟨[], none⟩).Log "boom" []).1.calls = [.WriteHeader 400, .Write "boom"] ∧
    ((logError.mk ⟨[], none⟩).Log "boom" []).2 = [] ∧
    ((logError.mk ⟨[], some "broken pipe"⟩).Log "boom" []).2
      = [{ format := "broken pipe", args := [] }] :=
  ⟨rfl, rfl, rfl⟩

/-- C6, amended. On every call `logError.Log` writes the 400 response with the
error's message; it calls `logger.Errorf` only when writing the body fails, once,
with the write error's message as the format argument and no other argument; when
the write succeeds it makes no call on the logger. -/
theorem logError_Log_logs_write_failure_only (w : ResponseWriter) (e : String)
    (logger : Logger) :
    ((logError.mk w).Log e logger).1.calls =
      w.calls ++ [.WriteHeader 400, .Write (bytesOf e)] ∧
    ((logError.mk w).Log e logger).2 =
      (match w.writeErr with
       | some errWrite => logger ++ [{ format := errWrite, args := [] }]
       | none => logger) := by
  unfold logError.Log ResponseWriter.Write ResponseWriter.WriteHeader
  cases hw : w.writeErr <;> simp [StatusBadRequest, Logger.Errorf]

/-- C7. When both embedded vocabulary documents parse, `loadJSONLDContext` returns
the map with exactly the keys `https://w3id.org/security/v1` and
`https://w3id.org/security/v2`, each key `u` bound to the document with
`DocumentURL = u` and the parse of the matching embedded text; when either
document fails to parse, `loadJSONLDContext` returns an error and `New` fails,
whatever the store provider answers. -/
theorem loadJSONLDContext_spec {ω : Type} (env : Env ω) :
    (∀ d1 d2, env.documentFromReader env.w3idOrgSecurityV1 = .ok d1 →
      env.documentFromReader env.w3idOrgSecurityV2 = .ok d2 →
      ∃ m, loadJSONLDContext env = .ok m ∧
        m.map Prod.fst = ["https://w3id.org/security/v1", "https://w3id.org/security/v2"] ∧
        m.lookup "https://w3id.org/security/v1"
          = some { DocumentURL := "https://w3id.org/security/v1", Document := d1 } ∧
        m.lookup "https://w3id.org/security/v2"
          = some { DocumentURL := "https://w3id.org/security/v2", Document := d2 }) ∧
    (∀ e, env.documentFromReader env.w3idOrgSecurityV1 = .error e ∨
        env.documentFromReader env.w3idOrgSecurityV2 = .error e →
      (∃ e1, loadJSONLDContext env = .error e1) ∧
      ∀ storeProv, ∃ e2, New env storeProv = .error e2) := by
  constructor
  · intro d1 d2 h1 h2
    refine ⟨[("https://w3id.org/security/v1", ⟨"https://w3id.org/security/v1", d1⟩),
             ("https://w3id.org/security/v2", ⟨"https://w3id.org/security/v2", d2⟩)],
            ?_, rfl, ?_, ?_⟩
    · simp [loadJSONLDContext, loadJSONLDContext.loop, h1, h2, GoMap.set]
    · simp [List.lookup]
    · simp [List.lookup]
  · intro e h
    have hl : ∃ e1, loadJSONLDContext env = .error e1 := by
      cases h1 : env.documentFromReader env.w3idOrgSecurityV1 with
      | error e1 => simp [loadJSONLDContext, loadJSONLDContext.loop, h1]
      | ok d1 =>
        rcases h with h | h
        · simp [h1] at h
        · simp [loadJSONLDContext, loadJSONLDContext.loop, h1, h]
    refine ⟨hl, fun storeProv => ?_⟩
    obtain ⟨e1, he1⟩ := hl
    unfold New
    cases storeProv storeName <;> simp [he1]

/-- Witness of C7: both documents parse in the concrete environment; with an
empty second document initialisation and `New` fail. -/
theorem loadJSONLDContext_spec_witness :
    (∃ m, loadJSONLDContext demoEnv = .ok m ∧
      m.map Prod.fst = ["https://w3id.org/security/v1", "https://w3id.org/security/v2"] ∧
      m.lookup "https://w3id.org/security/v1"
        = some { DocumentURL := "https://w3id.org/security/v1",
                 Document := "security-v1-vocabulary" } ∧
      m.lookup "https://w3id.org/security/v2"
        = some { DocumentURL := "https://w3id.org/security/v2",
                 Document := "security-v2-vocabulary" }) ∧
    ((∃ e1, loadJSONLDContext demoEnvBrokenV2 = .error e1) ∧
      ∀ storeProv, ∃ e2, New demoEnvBrokenV2 storeProv = .error e2) :=
  ⟨(loadJSONLDContext_spec demoEnv).1 "security-v1-vocabulary" "security-v2-vocabulary" rfl rfl,
   (loadJSONLDContext_spec demoEnvBrokenV2).2 "EOF" (Or.inr rfl)⟩

/-- C8. If during `Create(R, I)` the `Put` of the root under its own id is accepted
and the `Put` under key `R` is refused, then `Create` returns that error and no
bytes; the store it leaves holds the root's bytes under the root's id, holds under
every other key (key `R` included, when `R` is not the root's id) what it held
before, and has received exactly these two `Put` calls, none for a delegated
capability.  In every run of `Create`, each `Put` but the last was accepted, and a
refused `Put` makes `Create` return an error. -/
theorem Create_aborts_without_rollback {ω : Type} (env : Env ω) (s : Service) (R I : String)
    (x : ω) :
    (∀ signer y1 rootID y2 root y3 b y4 err y5,
      env.newCryptoSigner x = (.ok signer, y1) → env.uuidNewURN y1 = (rootID, y2) →
      env.newCapability
          { SignatureSuite := signer, SuiteType := SignatureType,
            VerificationMethod := (env.createDIDKey signer.PublicKeyBytes).2 }
          [.WithID rootID, .WithInvocationTarget R edvResource,
           .WithAllowedActions ["read", "write"]] y2 = (.ok root, y3) →
      env.jsonMarshal root = .ok b →
      env.backendPut root.ID b y3 = (none, y4) → env.backendPut R b y4 = (some err, y5) →
      (s.Create env R I x).1 = .error ("failed to store root capability: " ++ err) ∧
      (s.Create env R I x).2.1.store.data root.ID = some b ∧
      (R ≠ root.ID → (s.Create env R I x).2.1.store.data R = s.store.data R) ∧
      (∀ q, q ≠ root.ID → (s.Create env R I x).2.1.store.data q = s.store.data q) ∧
      (s.Create env R I x).2.1.store.puts
        = s.store.puts ++ [⟨root.ID, b, true⟩, ⟨R, b, false⟩]) ∧
    (∃ run, (s.Create env R I x).2.1.store.puts = s.store.puts ++ run ∧
      stopsAtFirstRefusal run = true ∧
      ((∃ r ∈ run, r.accepted = false) → ∃ e, (s.Create env R I x).1 = .error e)) := by
  constructor
  · intro signer y1 rootID y2 root y3 b y4 err y5 hs hu hn hm hp1 hp2
    have hr : s.createRootCapability env R x =
        (.error ("failed to store root capability: " ++ err),
          { s with store :=
              { data := fun q => if q = root.ID then some b else s.store.data q,
                puts := s.store.puts ++ [⟨root.ID, b, true⟩] ++ [⟨R, b, false⟩] } }, y5) := by
      simp [Service.createRootCapability, hs, hu, hn, hm,
        Store.Put_accepted env _ _ _ _ _ hp1, Store.Put_refused env _ _ _ _ _ _ hp2]
    have hc : s.Create env R I x =
        (.error ("failed to store root capability: " ++ err),
          { s with store :=
              { data := fun q => if q = root.ID then some b else s.store.data q,
                puts := s.store.puts ++ [⟨root.ID, b, true⟩] ++ [⟨R, b, false⟩] } }, y5) := by
      simp [Service.Create, hr]
    rw [hc]
    refine ⟨rfl, by simp, fun hne => by simp [hne], fun q hq => by simp [hq], by simp⟩
  · rcases createRootCapability_cases env s R x with
      ⟨e, he, hst⟩ | ⟨root, b, e, he, hp⟩ | ⟨root, b, e, he, hp⟩ | ⟨root, b, hok, hp⟩
    · rw [Create_of_root_error env s R I x e he, hst]
      exact ⟨[], by simp, rfl, fun _ => ⟨e, rfl⟩⟩
    · rw [Create_of_root_error env s R I x e he, hp]
      exact ⟨_, rfl, rfl, fun _ => ⟨e, rfl⟩⟩
    · rw [Create_of_root_error env s R I x e he, hp]
      exact ⟨_, rfl, rfl, fun _ => ⟨e, rfl⟩⟩
    · rcases Create_cases_of_root_ok env s R I x root hok with
        ⟨e, he, hst⟩ | ⟨D, b0, e, he, hq⟩ | ⟨D, b0, hb, hq⟩
      · rw [hst, hp]
        exact ⟨_, rfl, rfl, fun _ => ⟨e, he⟩⟩
      · rw [hq, hp]
        exact ⟨[⟨root.ID, b, true⟩, ⟨R, b, true⟩, ⟨D.ID, b0, false⟩], by simp, rfl,
          fun _ => ⟨e, he⟩⟩
      · rw [hq, hp]
        refine ⟨[⟨root.ID, b, true⟩, ⟨R, b, true⟩, ⟨D.ID, b0, true⟩], by simp, rfl, ?_⟩
        simp

/-- Witness of C8: in the concrete environment the backend accepts the first `Put`
and refuses the second. -/
theorem Create_aborts_without_rollback_witness :
    (demoService.Create demoEnv "vault-7" "did:key:z6MkInvoker" demoWorldOutage).1
      = .error ("failed to store root capability: " ++ "backend unavailable") ∧
    (demoService.Create demoEnv "vault-7" "did:key:z6MkInvoker" demoWorldOutage).2.1.store.data
      "urn:uuid:root-1"
      = some "urn:uuid:root-1|||read,write|vault-7|urn:edv:vault||did:key:z6MkDemoKey#z6MkDemoKey" ∧
    (demoService.Create demoEnv "vault-7" "did:key:z6MkInvoker" demoWorldOutage).2.1.store.data
      "vault-7" = none :=
  have h := (Create_aborts_without_rollback demoEnv demoService "vault-7" "did:key:z6MkInvoker"
    demoWorldOutage).1 _ _ _ _ _ _ _ _ "backend unavailable" _ rfl rfl rfl rfl rfl rfl
  ⟨h.1, h.2.1, h.2.2.1 (by decide)⟩

/-- C9. After a successful `Create(R, I1)` returning the bytes `b1` of `D1`, whatever
the store held before: the call minted a root `root1` by `createRootCapability`,
`D1` is the capability `NewCapability` returned for parent `root1.ID`, and the
store received exactly three accepted `Put`s, the root's bytes under the root's id,
the root's bytes under key `R`, and `b1` under `D1.ID`; so the value under `R` is
`json.Marshal(root1)` and the capability resolved under `R` is `root1`, whose id is
`D1.Parent` (unless the id the library generated for `D1` is `R` itself, when the
last `Put` leaves `D1` there).  After a second successful `Create(R, I2)` the same
holds of its own fresh root `root2`: `Handler(R)` binds to `root2`, and when the two
root ids differ that is not the parent of `D1`. -/
theorem Create_overwrites_root {ω ν : Type} (env : Env ω) (hc : HonoursOptions env)
    (hp : ParseInvertsMarshal env) (s : Service) (R I1 : String) (x : ω) (b1 : Bytes)
    (s1 : Service) (x1 : ω) (h1 : s.Create env R I1 x = (.ok b1, s1, x1)) :
    ∃ root1 t1 y1 rb1 signer1 z1 D1 z2,
      s.createRootCapability env R x = (.ok root1, t1, y1) ∧
      env.jsonMarshal root1 = .ok rb1 ∧
      env.newCapability
          { SignatureSuite := signer1, SuiteType := SignatureType,
            VerificationMethod := (env.createDIDKey signer1.PublicKeyBytes).2 }
          [.WithParent root1.ID, .WithInvoker I1, .WithAllowedActions ["read", "write"],
           .WithInvocationTarget R edvResource, .WithCapabilityChain [root1.ID]] z1
        = (.ok D1, z2) ∧
      env.jsonMarshal D1 = .ok b1 ∧ D1.Parent = root1.ID ∧
      s1.store.puts
        = s.store.puts ++ [⟨root1.ID, rb1, true⟩, ⟨R, rb1, true⟩, ⟨D1.ID, b1, true⟩] ∧
      s1.store.data
        = (fun q => if q = D1.ID then some b1 else if q = R then some rb1
                    else if q = root1.ID then some rb1 else s.store.data q) ∧
      s1.store.data R = some (if R = D1.ID then b1 else rb1) ∧
      (∀ z, env.backendGet R z = none →
        s1.getCapability env R z = .ok (if R = D1.ID then D1 else root1)) ∧
      (D1.ID ≠ R → s1.store.data R = some rb1 ∧
        ∀ z, env.backendGet R z = none → s1.getCapability env R z = .ok root1) ∧
      ∀ (I2 : String) (b2 : Bytes) (s2 : Service) (x2 : ω),
        s1.Create env R I2 x1 = (.ok b2, s2, x2) →
        ∃ root2 t2 y2 rb2 signer2 z3 D2 z4,
          s1.createRootCapability env R x1 = (.ok root2, t2, y2) ∧
          env.jsonMarshal root2 = .ok rb2 ∧
          env.newCapability
              { SignatureSuite := signer2, SuiteType := SignatureType,
                VerificationMethod := (env.createDIDKey signer2.PublicKeyBytes).2 }
              [.WithParent root2.ID, .WithInvoker I2, .WithAllowedActions ["read", "write"],
               .WithInvocationTarget R edvResource, .WithCapabilityChain [root2.ID]] z3
            = (.ok D2, z4) ∧
          env.jsonMarshal D2 = .ok b2 ∧ D2.Parent = root2.ID ∧
          s2.store.puts
            = s1.store.puts ++ [⟨root2.ID, rb2, true⟩, ⟨R, rb2, true⟩, ⟨D2.ID, b2, true⟩] ∧
          s2.store.data
            = (fun q => if q = D2.ID then some b2 else if q = R then some rb2
                        else if q = root2.ID then some rb2 else s1.store.data q) ∧
          (∀ (req : Request) (w : ResponseWriter) (next : ν) (z : ω),
            env.backendGet R z = none →
            ∃ hd, s2.Handler env R req w next z = .ok hd ∧
              hd.expectations.RootCapability = (if R = D2.ID then D2 else root2).ID) ∧
          (D2.ID ≠ R → root1.ID ≠ root2.ID →
            ∀ (req : Request) (w : ResponseWriter) (next : ν) (z : ω),
              env.backendGet R z = none →
              ∃ hd, s2.Handler env R req w next z = .ok hd ∧
                hd.expectations.RootCapability = root2.ID ∧
                hd.expectations.RootCapability ≠ D1.Parent) := by
  obtain ⟨root1, t1, y1, rb1, signer1, z1, D1, z2, hr1, hrm1, hn1, hm1, hputs1, hdata1⟩ :=
    Create_ok_full env s R I1 x b1 s1 x1 h1
  have hpar1 : D1.Parent = root1.ID := by
    rw [(hc _ _ _ _ _ hn1).2.1]
    simp [collectOptions, CapabilityOption.apply]
  have hkey1 := Create_data_under_resource s1 s R root1 D1 rb1 b1 hdata1
  have hget1 : ∀ z, env.backendGet R z = none →
      s1.getCapability env R z = .ok (if R = D1.ID then D1 else root1) :=
    fun z hz => getCapability_after_Create env hp s1 R root1 D1 rb1 b1 z hrm1 hm1 hkey1 hz
  refine ⟨root1, t1, y1, rb1, signer1, z1, D1, z2, hr1, hrm1, hn1, hm1, hpar1, hputs1, hdata1,
    hkey1, hget1, ?_, ?_⟩
  · intro hne
    have hq : ¬ R = D1.ID := fun e => hne e.symm
    refine ⟨?_, fun z hz => ?_⟩
    · rw [hkey1, if_neg hq]
    · rw [hget1 z hz, if_neg hq]
  intro I2 b2 s2 x2 h2
  obtain ⟨root2, t2, y2, rb2, signer2, z3, D2, z4, hr2, hrm2, hn2, hm2, hputs2, hdata2⟩ :=
    Create_ok_full env s1 R I2 x1 b2 s2 x2 h2
  have hpar2 : D2.Parent = root2.ID := by
    rw [(hc _ _ _ _ _ hn2).2.1]
    simp [collectOptions, CapabilityOption.apply]
  have hkey2 := Create_data_under_resource s2 s1 R root2 D2 rb2 b2 hdata2
  have hbind : ∀ (req : Request) (w : ResponseWriter) (next : ν) (z : ω),
      env.backendGet R z = none →
      ∃ hd, s2.Handler env R req w next z = .ok hd ∧
        hd.expectations.RootCapability = (if R = D2.ID then D2 else root2).ID := by
    intro req w next z hz
    obtain ⟨hd, hh, hroot, -⟩ := Handler_of_getCapability env s2 R req w next z _
      (getCapability_after_Create env hp s2 R root2 D2 rb2 b2 z hrm2 hm2 hkey2 hz)
    exact ⟨hd, hh, hroot⟩
  refine ⟨root2, t2, y2, rb2, signer2, z3, D2, z4, hr2, hrm2, hn2, hm2, hpar2, hputs2, hdata2,
    hbind, ?_⟩
  intro hne hroots req w next z hz
  have hq : ¬ R = D2.ID := fun e => hne e.symm
  obtain ⟨hd, hh, hroot⟩ := hbind req w next z hz
  rw [if_neg hq] at hroot
  refine ⟨hd, hh, hroot, ?_⟩
  rw [hroot, hpar1]
  exact Ne.symm hroots

/-- Witness of C9: two successive `Create` calls for `vault-7` in the concrete
environment; the handler built for `vault-7` after the first call is bound to
`urn:uuid:root-1`, the one built after the second call to `urn:uuid:root-2`. -/
theorem Create_overwrites_root_witness :
    (∃ root1 t1 y1 rb1 signer1 z1 D1 z2,
      demoService.createRootCapability demoEnv "vault-7" demoWorld = (.ok root1, t1, y1) ∧
      demoEnv.jsonMarshal root1 = .ok rb1 ∧
      demoEnv.newCapability
          { SignatureSuite := signer1, SuiteType := SignatureType,
            VerificationMethod := (demoEnv.createDIDKey signer1.PublicKeyBytes).2 }
          [.WithParent root1.ID, .WithInvoker "did:key:z6MkInvoker",
           .WithAllowedActions ["read", "write"],
           .WithInvocationTarget "vault-7" edvResource, .WithCapabilityChain [root1.ID]] z1
        = (.ok D1, z2) ∧
      demoEnv.jsonMarshal D1
        = .ok "urn:uuid:zcap-1|did:key:z6MkInvoker|urn:uuid:root-1|read,write|vault-7|urn:edv:vault|urn:uuid:root-1|did:key:z6MkDemoKey#z6MkDemoKey" ∧
      D1.Parent = root1.ID ∧
      demoProvisioned.store.puts
        = demoService.store.puts ++
            [⟨root1.ID, rb1, true⟩, ⟨"vault-7", rb1, true⟩,
             ⟨D1.ID, "urn:uuid:zcap-1|did:key:z6MkInvoker|urn:uuid:root-1|read,write|vault-7|urn:edv:vault|urn:uuid:root-1|did:key:z6MkDemoKey#z6MkDemoKey", true⟩] ∧
      demoProvisioned.store.data
        = (fun q => if q = D1.ID then some "urn:uuid:zcap-1|did:key:z6MkInvoker|urn:uuid:root-1|read,write|vault-7|urn:edv:vault|urn:uuid:root-1|did:key:z6MkDemoKey#z6MkDemoKey"
                    else if q = "vault-7" then some rb1
                    else if q = root1.ID then some rb1 else demoService.store.data q) ∧
      demoProvisioned.store.data "vault-7"
        = some (if "vault-7" = D1.ID then "urn:uuid:zcap-1|did:key:z6MkInvoker|urn:uuid:root-1|read,write|vault-7|urn:edv:vault|urn:uuid:root-1|did:key:z6MkDemoKey#z6MkDemoKey" else rb1) ∧
      (∀ z, demoEnv.backendGet "vault-7" z = none →
        demoProvisioned.getCapability demoEnv "vault-7" z
          = .ok (if "vault-7" = D1.ID then D1 else root1)) ∧
      (D1.ID ≠ "vault-7" → demoProvisioned.store.data "vault-7" = some rb1 ∧
        ∀ z, demoEnv.backendGet "vault-7" z = none →
          demoProvisioned.getCapability demoEnv "vault-7" z = .ok root1) ∧
      ∀ (I2 : String) (b2 : Bytes) (s2 : Service) (x2 : DemoWorld),
        demoProvisioned.Create demoEnv "vault-7" I2 demoWorldAfter = (.ok b2, s2, x2) →
        ∃ root2 t2 y2 rb2 signer2 z3 D2 z4,
          demoProvisioned.createRootCapability demoEnv "vault-7" demoWorldAfter
            = (.ok root2, t2, y2) ∧
          demoEnv.jsonMarshal root2 = .ok rb2 ∧
          demoEnv.newCapability
              { SignatureSuite := signer2, SuiteType := SignatureType,
                VerificationMethod := (demoEnv.createDIDKey signer2.PublicKeyBytes).2 }
              [.WithParent root2.ID, .WithInvoker I2, .WithAllowedActions ["read", "write"],
               .WithInvocationTarget "vault-7" edvResource, .WithCapabilityChain [root2.ID]] z3
            = (.ok D2, z4) ∧
          demoEnv.jsonMarshal D2 = .ok b2 ∧ D2.Parent = root2.ID ∧
          s2.store.puts
            = demoProvisioned.store.puts ++
                [⟨root2.ID, rb2, true⟩, ⟨"vault-7", rb2, true⟩, ⟨D2.ID, b2, true⟩] ∧
          s2.store.data
            = (fun q => if q = D2.ID then some b2 else if q = "vault-7" then some rb2
                        else if q = root2.ID then some rb2 else demoProvisioned.store.data q) ∧
          (∀ (req : Request) (w : ResponseWriter) (next : Unit) (z : DemoWorld),
            demoEnv.backendGet "vault-7" z = none →
            ∃ hd, s2.Handler demoEnv "vault-7" req w next z = .ok hd ∧
              hd.expectations.RootCapability = (if "vault-7" = D2.ID then D2 else root2).ID) ∧
          (D2.ID ≠ "vault-7" → root1.ID ≠ root2.ID →
            ∀ (req : Request) (w : ResponseWriter) (next : Unit) (z : DemoWorld),
              demoEnv.backendGet "vault-7" z = none →
              ∃ hd, s2.Handler demoEnv "vault-7" req w next z = .ok hd ∧
                hd.expectations.RootCapability = root2.ID ∧
                hd.expectations.RootCapability ≠ D1.Parent)) ∧
    (∃ b2, (demoProvisioned.Create demoEnv "vault-7" "did:key:z6MkOther" demoWorldAfter).1
        = .ok b2) ∧
    (∃ hd, demoProvisioned.Handler demoEnv "vault-7" ⟨"GET"⟩ ⟨[], none⟩ () demoWorldAfter
        = .ok hd ∧ hd.expectations.RootCapability = "urn:uuid:root-1") ∧
    (∃ hd, (demoProvisioned.Create demoEnv "vault-7" "did:key:z6MkOther"
          demoWorldAfter).2.1.Handler demoEnv "vault-7" ⟨"GET"⟩ ⟨[], none⟩ () demoWorldAfter
        = .ok hd ∧ hd.expectations.RootCapability = "urn:uuid:root-2") ∧
    demoProvisioned.store.data "vault-7"
      = some "urn:uuid:root-1|||read,write|vault-7|urn:edv:vault||did:key:z6MkDemoKey#z6MkDemoKey" ∧
    (demoProvisioned.Create demoEnv "vault-7" "did:key:z6MkOther"
        demoWorldAfter).2.1.store.data "vault-7"
      = some "urn:uuid:root-2|||read,write|vault-7|urn:edv:vault||did:key:z6MkDemoKey#z6MkDemoKey" :=
  ⟨Create_overwrites_root demoEnv demoEnv_honours demoEnv_parseInvertsMarshal
      demoService "vault-7" "did:key:z6MkInvoker" demoWorld
      "urn:uuid:zcap-1|did:key:z6MkInvoker|urn:uuid:root-1|read,write|vault-7|urn:edv:vault|urn:uuid:root-1|did:key:z6MkDemoKey#z6MkDemoKey"
      demoProvisioned demoWorldAfter rfl,
   ⟨_, rfl⟩, ⟨_, rfl, rfl⟩, ⟨_, rfl, rfl⟩, rfl, rfl⟩

/-- C10. Immediately after a successful `Create(R, I)` returning the bytes `b` of
`D`: `D` is the capability `NewCapability` returned for parent `root.ID`, where
`root` is the capability minted by `createRootCapability` in this call; the chain
of `D` is `[root.ID]`, so it ends at `root.ID`; `root` has no parent, an empty
chain and allowed actions `read` and `write`; `root` and `D` both target resource
`R` of type `urn:edv:vault`; the store holds `json.Marshal(root)` under `root.ID`
unless `D.ID` is that same key, and `getCapability(root.ID)` resolves to `root`
(the id the library generated for `D` being other than the root's). -/
theorem Create_chain_ends_at_root {ω : Type} (env : Env ω) (hc : HonoursOptions env)
    (hp : ParseInvertsMarshal env) (s : Service) (R I : String) (x : ω) (b : Bytes)
    (s2 : Service) (x2 : ω) (h : s.Create env R I x = (.ok b, s2, x2)) :
    ∃ root t y rb signer z1 D z2,
      s.createRootCapability env R x = (.ok root, t, y) ∧
      env.jsonMarshal root = .ok rb ∧
      env.newCapability
          { SignatureSuite := signer, SuiteType := SignatureType,
            VerificationMethod := (env.createDIDKey signer.PublicKeyBytes).2 }
          [.WithParent root.ID, .WithInvoker I, .WithAllowedActions ["read", "write"],
           .WithInvocationTarget R edvResource, .WithCapabilityChain [root.ID]] z1
        = (.ok D, z2) ∧
      env.jsonMarshal D = .ok b ∧
      D.CapabilityChain = [root.ID] ∧ D.CapabilityChain.getLast? = some root.ID ∧
      root.Parent = "" ∧ root.CapabilityChain = [] ∧ root.AllowedAction = ["read", "write"] ∧
      root.InvocationTarget = ⟨R, "urn:edv:vault"⟩ ∧
      D.InvocationTarget = ⟨R, "urn:edv:vault"⟩ ∧
      root.InvocationTarget.ID = D.InvocationTarget.ID ∧
      s2.store.data
        = (fun q => if q = D.ID then some b else if q = R then some rb
                    else if q = root.ID then some rb else s.store.data q) ∧
      s2.store.data root.ID = some (if root.ID = D.ID then b else rb) ∧
      (∀ z, env.backendGet root.ID z = none →
        s2.getCapability env root.ID z = .ok (if root.ID = D.ID then D else root)) ∧
      (D.ID ≠ root.ID → ∀ z, env.backendGet root.ID z = none →
        s2.getCapability env root.ID z = .ok root) := by
  obtain ⟨root, t, y, rb, signer, z1, D, z2, hr, hrm, hn, hm, -, hdata⟩ :=
    Create_ok_full env s R I x b s2 x2 h
  obtain ⟨rsigner, w1, rootID, w2, w3, rb0, w4, -, -, hrn, -, -, -, -, -, -⟩ :=
    createRootCapability_ok env s R x root t y hr
  have hD := hc _ _ _ _ _ hn
  have hR := hc _ _ _ _ _ hrn
  have hDt : D.InvocationTarget = ⟨R, "urn:edv:vault"⟩ := by
    rw [hD.2.2.2.2.1]
    simp [collectOptions, CapabilityOption.apply, edvResource]
  have hRt : root.InvocationTarget = ⟨R, "urn:edv:vault"⟩ := by
    rw [hR.2.2.2.2.1]
    simp [collectOptions, CapabilityOption.apply, edvResource]
  have hchain : D.CapabilityChain = [root.ID] := by
    rw [hD.2.2.2.2.2]
    simp [collectOptions, CapabilityOption.apply]
  have hkey : s2.store.data root.ID = some (if root.ID = D.ID then b else rb) := by
    rw [hdata]
    show (if root.ID = D.ID then some b else if root.ID = R then some rb
          else if root.ID = root.ID then some rb else s.store.data root.ID)
        = some (if root.ID = D.ID then b else rb)
    by_cases h1 : root.ID = D.ID
    · rw [if_pos h1, if_pos h1]
    · rw [if_neg h1, if_neg h1]
      by_cases h2 : root.ID = R
      · rw [if_pos h2]
      · rw [if_neg h2, if_pos rfl]
  have hget : ∀ z, env.backendGet root.ID z = none →
      s2.getCapability env root.ID z = .ok (if root.ID = D.ID then D else root) := by
    intro z hz
    by_cases h1 : root.ID = D.ID
    · simp only [h1, if_true] at hkey ⊢
      rw [← h1] at hkey
      have := getCapability_of_data env hp s2 root.ID D b z hm hkey hz
      rw [h1] at this
      exact this
    · simp only [h1, if_false] at hkey ⊢
      exact getCapability_of_data env hp s2 root.ID root rb z hrm hkey hz
  refine ⟨root, t, y, rb, signer, z1, D, z2, hr, hrm, hn, hm, hchain, ?_, ?_, ?_, ?_, hRt, hDt,
    by rw [hRt, hDt], hdata, hkey, hget, ?_⟩
  · rw [hchain]
    rfl
  · rw [hR.2.1]
    simp [collectOptions, CapabilityOption.apply]
  · rw [hR.2.2.2.2.2]
    simp [collectOptions, CapabilityOption.apply]
  · rw [hR.2.2.2.1]
    simp [collectOptions, CapabilityOption.apply]
  · intro hne z hz
    have h1 : ¬ root.ID = D.ID := fun e => hne e.symm
    have := hget z hz
    simpa [h1] using this

/-- Witness of C10: `Create` for `vault-7` in the concrete environment; the chain
of the delegated capability ends at `urn:uuid:root-1`, which resolves in the store
to the root capability for `vault-7`. -/
theorem Create_chain_ends_at_root_witness :
    (∃ root t y rb signer z1 D z2,
      demoService.createRootCapability demoEnv "vault-7" demoWorld = (.ok root, t, y) ∧
      demoEnv.jsonMarshal root = .ok rb ∧
      demoEnv.newCapability
          { SignatureSuite := signer, SuiteType := SignatureType,
            VerificationMethod := (demoEnv.createDIDKey signer.PublicKeyBytes).2 }
          [.WithParent root.ID, .WithInvoker "did:key:z6MkInvoker",
           .WithAllowedActions ["read", "write"],
           .WithInvocationTarget "vault-7" edvResource, .WithCapabilityChain [root.ID]] z1
        = (.ok D, z2) ∧
      demoEnv.jsonMarshal D
        = .ok "urn:uuid:zcap-1|did:key:z6MkInvoker|urn:uuid:root-1|read,write|vault-7|urn:edv:vault|urn:uuid:root-1|did:key:z6MkDemoKey#z6MkDemoKey" ∧
      D.CapabilityChain = [root.ID] ∧ D.CapabilityChain.getLast? = some root.ID ∧
      root.Parent = "" ∧ root.CapabilityChain = [] ∧ root.AllowedAction = ["read", "write"] ∧
      root.InvocationTarget = ⟨"vault-7", "urn:edv:vault"⟩ ∧
      D.InvocationTarget = ⟨"vault-7", "urn:edv:vault"⟩ ∧
      root.InvocationTarget.ID = D.InvocationTarget.ID ∧
      demoProvisioned.store.data
        = (fun q => if q = D.ID then some "urn:uuid:zcap-1|did:key:z6MkInvoker|urn:uuid:root-1|read,write|vault-7|urn:edv:vault|urn:uuid:root-1|did:key:z6MkDemoKey#z6MkDemoKey"
                    else if q = "vault-7" then some rb
                    else if q = root.ID then some rb else demoService.store.data q) ∧
      demoProvisioned.store.data root.ID
        = some (if root.ID = D.ID then "urn:uuid:zcap-1|did:key:z6MkInvoker|urn:uuid:root-1|read,write|vault-7|urn:edv:vault|urn:uuid:root-1|did:key:z6MkDemoKey#z6MkDemoKey" else rb) ∧
      (∀ z, demoEnv.backendGet root.ID z = none →
        demoProvisioned.getCapability demoEnv root.ID z
          = .ok (if root.ID = D.ID then D else root)) ∧
      (D.ID ≠ root.ID → ∀ z, demoEnv.backendGet root.ID z = none →
        demoProvisioned.getCapability demoEnv root.ID z = .ok root)) ∧
    demoProvisioned.getCapability demoEnv "urn:uuid:root-1" demoWorldAfter
      = .ok { ID := "urn:uuid:root-1", Invoker := "", Parent := "",
              AllowedAction := ["read", "write"],
              InvocationTarget := ⟨"vault-7", "urn:edv:vault"⟩, CapabilityChain := [],
              Proof := ["did:key:z6MkDemoKey#z6MkDemoKey"] } :=
  ⟨Create_chain_ends_at_root demoEnv demoEnv_honours demoEnv_parseInvertsMarshal demoService
      "vault-7" "did:key:z6MkInvoker" demoWorld
      "urn:uuid:zcap-1|did:key:z6MkInvoker|urn:uuid:root-1|read,write|vault-7|urn:edv:vault|urn:uuid:root-1|did:key:z6MkDemoKey#z6MkDemoKey"
      demoProvisioned demoWorldAfter rfl,
   rfl⟩

end Zcapld
